import Mathlib

/-!
# Verification of the Programming Activity System (src/main.cpp)

A shallow embedding of the console application's input-validation framework,
activity computations and menu loops, together with proofs of the spec's
claims about them.

Modelling conventions:
* The interactive input stream is a finite `List Char` (character level, for
  the `cin >>` extraction semantics) or a `List String` of whitespace-delimited
  tokens (for the string reads, where `cin >> string` consumes exactly one
  token).  An empty list models end of input; since the C++ retry loops spin
  forever once the stream fails permanently, the loop functions take a fuel
  argument and return `none` when no value is ever produced.
* `double` arithmetic is modelled over `ℚ`; the decimal literals of the source
  (`0.05`, `58.2554`, ...) are exact rationals.
* Error lines printed with `cout` are logged as values of an inductive
  `ErrMsg` type; `ErrMsg.render` gives the exact text the program prints.
-/

namespace ActivitySystem

/-- The distinct `[ERROR] ...` lines the program can print while validating
input (`src/main.cpp` lines 78, 99, 120, 151). -/
inductive ErrMsg where
  | parseFail : ErrMsg
  | choiceRange (mn mx : Int) : ErrMsg
  | valueRange (mn mx : ℚ) : ErrMsg
  | yesNo : ErrMsg
deriving DecidableEq, Repr

/-- The exact text of each error line as the program prints it. -/
def ErrMsg.render : ErrMsg → String
  | .parseFail => "[ERROR] Invalid input! Try again."
  | .choiceRange mn mx =>
      "[ERROR] Choice must be " ++ (toString mn ++ "-" ++ toString mx ++ ". Try again.")
  | .valueRange mn mx =>
      "[ERROR] Value must be between " ++ (toString mn ++ " and " ++ toString mx ++ ". Try again.")
  | .yesNo => "[ERROR] Please type 'y' or 'n'."

/-- Whitespace in the default C locale, as skipped by `operator>>`. -/
def isWs (c : Char) : Bool :=
  c == ' ' || c == '\t' || c == '\n' || c == '\x0b' || c == '\x0c' || c == '\r'

/-- Numeric value of a digit string (most significant digit first). -/
def digitsVal (ds : List Char) : Nat :=
  ds.foldl (fun n c => 10 * n + (c.toNat - '0'.toNat)) 0

/-- `cin >> (var : int)`: skip whitespace, then read an optional sign and the
longest run of digits.  Success yields the value and leaves the following
characters (for instance the `abc` of the token `12abc`) unread; failure
(no digit available) sets the fail state and extracts nothing beyond the
skipped whitespace.  Numerals within `int` range only; the overflow path of
`num_get` is outside the claims considered here. -/
def extractInt (cs : List Char) : Option Int × List Char :=
  let s := cs.dropWhile isWs
  match s with
  | [] => (none, [])
  | c :: r =>
    if c = '-' then
      let ds := r.takeWhile Char.isDigit
      if ds.isEmpty then (none, c :: r)
      else (some (-(digitsVal ds : Int)), r.dropWhile Char.isDigit)
    else if c = '+' then
      let ds := r.takeWhile Char.isDigit
      if ds.isEmpty then (none, c :: r)
      else (some (digitsVal ds : Int), r.dropWhile Char.isDigit)
    else
      let ds := (c :: r).takeWhile Char.isDigit
      if ds.isEmpty then (none, c :: r)
      else (some (digitsVal ds : Int), (c :: r).dropWhile Char.isDigit)

/-- `cin >> (var : double)` restricted to the plain decimal forms the claims
use: optional sign, integer digits, optional fraction after `.`; exponent
forms are not modelled.  At least one digit is required, matching `num_get`. -/
def extractRat (cs : List Char) : Option ℚ × List Char :=
  let s := cs.dropWhile isWs
  let sgnNeg : Bool := match s with
    | '-' :: _ => true
    | _ => false
  let s1 : List Char := match s with
    | '-' :: r => r
    | '+' :: r => r
    | _ => s
  let ip := s1.takeWhile Char.isDigit
  let s2 := s1.dropWhile Char.isDigit
  let fp : List Char := match s2 with
    | '.' :: r => r.takeWhile Char.isDigit
    | _ => []
  let s3 : List Char := match s2 with
    | '.' :: r => r.dropWhile Char.isDigit
    | _ => s2
  if ip.isEmpty && fp.isEmpty then (none, s)
  else
    let v : ℚ := (digitsVal ip : ℚ) + (digitsVal fp : ℚ) / (10 : ℚ) ^ fp.length
    (some (if sgnNeg then -v else v), s3)

/-- `cin.ignore(numeric_limits<streamsize>::max(), '\n')`: discard characters
up to and including the first newline (everything, if none remains). -/
def ignoreLine (cs : List Char) : List Char :=
  (cs.dropWhile (fun c => c != '\n')).drop 1

/-- `InputValidator::getValidated<int>` (`src/main.cpp` lines 70-82): loop
reading with `cin >>`; on failure print the parse error, clear the stream and
discard the rest of the line, then retry.  Returns the value and the unread
remainder, plus the log of error lines; `none` when the loop never produces
a value within `fuel` iterations (in particular, forever at end of input). -/
def getValidatedInt : Nat → List Char → Option (Int × List Char) × List ErrMsg
  | 0, _ => (none, [])
  | fuel + 1, cs =>
    match extractInt cs with
    | (some v, rest) => (some (v, rest), [])
    | (none, rest) =>
      let r := getValidatedInt fuel (ignoreLine rest)
      (r.1, ErrMsg.parseFail :: r.2)

/-- `InputValidator::getValidated<double>`, same loop at `ℚ`. -/
def getValidatedRat : Nat → List Char → Option (ℚ × List Char) × List ErrMsg
  | 0, _ => (none, [])
  | fuel + 1, cs =>
    match extractRat cs with
    | (some v, rest) => (some (v, rest), [])
    | (none, rest) =>
      let r := getValidatedRat fuel (ignoreLine rest)
      (r.1, ErrMsg.parseFail :: r.2)

/-- `InputValidator::getValidatedChoice` (`src/main.cpp` lines 93-103):
do-while around `getValidated<int>` until the value lies in `[mn, mx]`;
an out-of-range value prints its own error line and retries. -/
def getValidatedChoice : Nat → Int → Int → List Char →
    Option (Int × List Char) × List ErrMsg
  | 0, _, _, _ => (none, [])
  | fuel + 1, mn, mx, cs =>
    match getValidatedInt (fuel + 1) cs with
    | (none, log) => (none, log)
    | (some (v, rest), log) =>
      if v < mn ∨ v > mx then
        let r := getValidatedChoice fuel mn mx rest
        (r.1, log ++ ErrMsg.choiceRange mn mx :: r.2)
      else (some (v, rest), log)

/-- `InputValidator::getValidatedDouble` (`src/main.cpp` lines 114-124):
the same do-while pattern for `double` values. -/
def getValidatedDouble : Nat → ℚ → ℚ → List Char →
    Option (ℚ × List Char) × List ErrMsg
  | 0, _, _, _ => (none, [])
  | fuel + 1, mn, mx, cs =>
    match getValidatedRat (fuel + 1) cs with
    | (none, log) => (none, log)
    | (some (v, rest), log) =>
      if v < mn ∨ v > mx then
        let r := getValidatedDouble fuel mn mx rest
        (r.1, log ++ ErrMsg.valueRange mn mx :: r.2)
      else (some (v, rest), log)

/-- `tolower` applied to each character of a string
(`src/main.cpp` line 146); ASCII case folding, as in the default C locale. -/
def strToLower (s : String) : String :=
  String.mk (s.data.map Char.toLower)

/-- `InputValidator::getValidatedYesNo` (`src/main.cpp` lines 139-154).  The
inner `getValidated<string>` consumes exactly one whitespace-delimited token
and cannot fail on a present token, so the stream is modelled at token level.
The loop lowercases the token, returns on `y`/`yes`/`n`/`no` and otherwise
prints an error and retries; `none` means the loop is still running when the
fuel (or the input) runs out. -/
def getValidatedYesNo : Nat → List String → Option (Bool × List String) × List ErrMsg
  | 0, _ => (none, [])
  | _ + 1, [] => (none, [])
  | fuel + 1, t :: ts =>
    let input := strToLower t
    if input = "y" ∨ input = "yes" then (some (true, ts), [])
    else if input = "n" ∨ input = "no" then (some (false, ts), [])
    else
      let r := getValidatedYesNo fuel ts
      (r.1, ErrMsg.yesNo :: r.2)

/-- `UI::pauseBuffer` (`src/main.cpp` lines 44-48): `cin.ignore(max, '\n')`
discards through the first newline, then `cin.get()` extracts one further
character.  Returns the remaining stream. -/
def pauseBuffer (cs : List Char) : List Char :=
  (ignoreLine cs).drop 1

/-! ## Student Grade Evaluator (`src/main.cpp` lines 214-258) -/

/-- `PASSING_GRADE` (`src/main.cpp` line 218). -/
def PASSING_GRADE : ℚ := 80

/-- The computation of `StudentGradeEvaluator::run` after the four validated
grades have been read (`src/main.cpp` lines 230-254): accumulate the sum,
divide by `NUMBER_OF_GRADES = 4`, and pass iff `average >= PASSING_GRADE`
(the remark headers printed are `PASADO KA BOI!!` / `BAGSAK KA BOI!!`). -/
def gradeEvaluator (grades : List ℚ) : ℚ × Bool :=
  let sum := grades.foldl (· + ·) 0
  let average := sum / 4
  (average, decide (average ≥ PASSING_GRADE))

/-! ## Triangle Loop Activity (`src/main.cpp` lines 269-371) -/

/-- `TriangleLoopActivity::displayRightTriangle` (`src/main.cpp` lines
280-287): for `i = 0..height-1` print `i+1` stars then a newline.  Modelled
as the list of printed lines (each line's characters, newline omitted). -/
def displayRightTriangle (height : Nat) : List (List Char) :=
  (List.range height).map (fun i => List.replicate (i + 1) '*')

/-- `TriangleLoopActivity::displayInvertedTriangle` (`src/main.cpp` lines
298-305): for `i = 0..height-1` the inner loop runs `j = height` down to
`j > i`, printing `height - i` stars, then a newline. -/
def displayInvertedTriangle (height : Nat) : List (List Char) :=
  (List.range height).map (fun i => List.replicate (height - i) '*')

/-- Flatten printed lines to the raw character stream (`line` then `'\n'`). -/
def linesOut (ls : List (List Char)) : List Char :=
  ls.flatMap (fun l => l ++ ['\n'])

/-- Raw characters written by the `case 3` (*Both*) branch of
`TriangleLoopActivity::run` (`src/main.cpp` lines 358-363):
`cout << "Right Triangle:\n"`, the right triangle, `cout <<
"\nInverted Triangle:\n"`, the inverted triangle. -/
def triangleBothOut (height : Nat) : List Char :=
  ("Right Triangle:\n").data ++ linesOut (displayRightTriangle height) ++
    ("\nInverted Triangle:\n").data ++ linesOut (displayInvertedTriangle height)

/-- Split a character stream into its lines at `'\n'` (a trailing newline
yields a final empty line, as a terminal would show). -/
def splitLines : List Char → List (List Char)
  | [] => [[]]
  | c :: rest =>
    if c = '\n' then [] :: splitLines rest
    else
      match splitLines rest with
      | l :: ls => (c :: l) :: ls
      | [] => [[c]]

/-! ## Currency Exchange Calculator (`src/main.cpp` lines 381-541) -/

/-- `USD_RATE` (`src/main.cpp` line 384). -/
def USD_RATE : ℚ := 58.2554
/-- `EUR_RATE` (`src/main.cpp` line 385). -/
def EUR_RATE : ℚ := 67.6375
/-- `JPY_RATE` (`src/main.cpp` line 386). -/
def JPY_RATE : ℚ := 0.3818
/-- `AUD_RATE` (`src/main.cpp` line 387). -/
def AUD_RATE : ℚ := 38.3071
/-- `TRANSACTION_FEE_RATE` (`src/main.cpp` line 388). -/
def TRANSACTION_FEE_RATE : ℚ := 0.05

/-- Outcome of `CurrencyExchangeCalculator::convertCurrency`: either the
transaction is cancelled (a message, no amounts computed) or a quote with
exactly the values the code computes and displays. -/
inductive ConvResult where
  | cancelled : ConvResult
  | quote (fee netPHP usd eur jpy aud : ℚ) : ConvResult
deriving DecidableEq, Repr

/-- `CurrencyExchangeCalculator::convertCurrency` (`src/main.cpp` lines
466-493) after the validated amount and the yes/no confirmation have been
read: on `no`, print the cancellation message and return with nothing
computed; on `yes`, `fee = amount * TRANSACTION_FEE_RATE`,
`netPHP = amount - fee`, and each converted amount is `netPHP / rate`. -/
def convertCurrency (amountInPHP : ℚ) (proceed : Bool) : ConvResult :=
  if !proceed then .cancelled
  else
    let fee := amountInPHP * TRANSACTION_FEE_RATE
    let netPHP := amountInPHP - fee
    .quote fee netPHP (netPHP / USD_RATE) (netPHP / EUR_RATE)
      (netPHP / JPY_RATE) (netPHP / AUD_RATE)

/-! ## Menu loops (`Program::run`, `TriangleLoopActivity::run`,
`CurrencyExchangeCalculator::run`) -/

/-- What one execution of a menu's loop body does with a validated choice:
dispatch handler `k`, leave the loop, or fall into the switch's `default`
branch (which only prints an `[ERROR]` line). -/
inductive MenuStep where
  | dispatch (k : Nat) : MenuStep
  | exit : MenuStep
  | invalid : MenuStep
deriving DecidableEq, Repr

/-- The `switch (menuChoice)` of `Program::run` (`src/main.cpp` lines
603-621): cases 1-4 run one activity, case 5 prints the goodbye message and
returns, `default` prints `[ERROR] Choice must be 1-5. Try again.`. -/
def mainMenuStep (c : Int) : MenuStep :=
  if c = 1 then .dispatch 1
  else if c = 2 then .dispatch 2
  else if c = 3 then .dispatch 3
  else if c = 4 then .dispatch 4
  else if c = 5 then .exit
  else .invalid

/-- The loop body of `TriangleLoopActivity::run` (`src/main.cpp` lines
334-367): choice 4 breaks out before the switch; the switch dispatches
cases 1-3 and its `default` prints `[ERROR] Choice must be 1-4. Try again.`. -/
def triangleMenuStep (c : Int) : MenuStep :=
  if c = 4 then .exit
  else if c = 1 then .dispatch 1
  else if c = 2 then .dispatch 2
  else if c = 3 then .dispatch 3
  else .invalid

/-- The loop body of `CurrencyExchangeCalculator::run` (`src/main.cpp` lines
518-538): choice 3 breaks out before the switch; the switch dispatches
cases 1-2 and its `default` prints `[ERROR] Choice must be 1-3. Try again.`. -/
def currencyMenuStep (c : Int) : MenuStep :=
  if c = 3 then .exit
  else if c = 1 then .dispatch 1
  else if c = 2 then .dispatch 2
  else .invalid

/-- The `while (true)` loop of `Program::run` (`src/main.cpp` lines 584-622)
over a list of already-validated choices: returns the sequence of activity
handlers invoked, and `true` when the loop was left by the exit choice
(`false` when fuel or input ran out first). -/
def programRun : Nat → List Int → List Nat × Bool
  | 0, _ => ([], false)
  | _ + 1, [] => ([], false)
  | fuel + 1, c :: cs =>
    match mainMenuStep c with
    | .exit => ([], true)
    | .dispatch k =>
      let r := programRun fuel cs
      (k :: r.1, r.2)
    | .invalid => programRun fuel cs

/-- The `while (true)` loop of `TriangleLoopActivity::run` (`src/main.cpp`
lines 325-369): each non-exit iteration additionally reads a validated
height before the switch, so the input list alternates choice, height.
Events record (handler, height). -/
def triangleRun : Nat → List Int → List (Nat × Int) × Bool
  | 0, _ => ([], false)
  | _ + 1, [] => ([], false)
  | fuel + 1, c :: cs =>
    if c = 4 then ([], true)
    else
      match cs with
      | [] => ([], false)
      | h :: cs' =>
        match triangleMenuStep c with
        | .dispatch k =>
          let r := triangleRun fuel cs'
          ((k, h) :: r.1, r.2)
        | _ => triangleRun fuel cs'

/-- The `while (true)` loop of `CurrencyExchangeCalculator::run`
(`src/main.cpp` lines 508-539) over validated choices. -/
def currencyRun : Nat → List Int → List Nat × Bool
  | 0, _ => ([], false)
  | _ + 1, [] => ([], false)
  | fuel + 1, c :: cs =>
    if c = 3 then ([], true)
    else
      match currencyMenuStep c with
      | .dispatch k =>
        let r := currencyRun fuel cs
        (k :: r.1, r.2)
      | _ => currencyRun fuel cs

/-! ## Helper lemmas -/

theorem dropWhile_append_all {α : Type} {p : α → Bool} (ws t : List α)
    (h : ∀ c ∈ ws, p c = true) :
    (ws ++ t).dropWhile p = t.dropWhile p := by
  induction ws with
  | nil => rfl
  | cons c ws ih =>
    have hc : p c = true := h c (List.mem_cons_self c ws)
    simp only [List.cons_append, List.dropWhile_cons, hc, if_true]
    exact ih (fun x hx => h x (List.mem_cons_of_mem c hx))

theorem takeWhile_all_append {α : Type} {p : α → Bool} (ds rest : List α)
    (hds : ∀ c ∈ ds, p c = true)
    (hrest : ∀ c, rest.head? = some c → p c = false) :
    (ds ++ rest).takeWhile p = ds ∧ (ds ++ rest).dropWhile p = rest := by
  induction ds with
  | nil =>
    simp only [List.nil_append]
    cases rest with
    | nil => exact ⟨rfl, rfl⟩
    | cons r rs =>
      have hr : p r = false := hrest r rfl
      simp [List.takeWhile_cons, List.dropWhile_cons, hr]
  | cons d ds ih =>
    have hd : p d = true := hds d (List.mem_cons_self d ds)
    have := ih (fun x hx => hds x (List.mem_cons_of_mem d hx))
    simp [List.cons_append, List.takeWhile_cons, List.dropWhile_cons, hd, this.1, this.2]

theorem isWs_eq_false_of_isDigit {c : Char} (h : c.isDigit = true) :
    isWs c = false := by
  by_contra hne
  rw [Bool.not_eq_false] at hne
  simp only [isWs, Bool.or_eq_true, beq_iff_eq] at hne
  rcases hne with ((((h1 | h1) | h1) | h1) | h1) | h1 <;> subst h1 <;>
    exact absurd h (by decide)

theorem ne_sign_of_isDigit {c : Char} (h : c.isDigit = true) :
    c ≠ '-' ∧ c ≠ '+' := by
  constructor <;> intro h1 <;> subst h1 <;> exact absurd h (by decide)

/-- The error text for an out-of-range choice differs from the parse-failure
text, whatever the bounds: the two lines already differ at their ninth
character. -/
theorem render_choiceRange_ne_parseFail (mn mx : Int) :
    ErrMsg.render (.choiceRange mn mx) ≠ ErrMsg.render .parseFail := by
  intro h
  have h2 := congrArg (fun s => s.data.take 9) h
  simp only [ErrMsg.render] at h2
  rw [String.data_append, List.take_append_of_le_length (by decide)] at h2
  exact absurd h2 (by decide)

/-- Likewise for the out-of-range error of `getValidatedDouble`. -/
theorem render_valueRange_ne_parseFail (mn mx : ℚ) :
    ErrMsg.render (.valueRange mn mx) ≠ ErrMsg.render .parseFail := by
  intro h
  have h2 := congrArg (fun s => s.data.take 9) h
  simp only [ErrMsg.render] at h2
  rw [String.data_append, List.take_append_of_le_length (by decide)] at h2
  exact absurd h2 (by decide)

theorem getValidatedChoice_inRange :
    ∀ (fuel : Nat) (mn mx : Int) (cs : List Char) (v : Int) (rest : List Char),
      (getValidatedChoice fuel mn mx cs).1 = some (v, rest) → mn ≤ v ∧ v ≤ mx := by
  intro fuel
  induction fuel with
  | zero =>
    intro mn mx cs v rest h
    simp [getValidatedChoice] at h
  | succ n ih =>
    intro mn mx cs v rest h
    rw [getValidatedChoice] at h
    cases hI : getValidatedInt (n + 1) cs with
    | mk o log =>
      rw [hI] at h
      cases o with
      | none => simp at h
      | some p =>
        obtain ⟨v0, rest0⟩ := p
        simp only at h
        by_cases hb : v0 < mn ∨ v0 > mx
        · rw [if_pos hb] at h
          exact ih mn mx rest0 v rest h
        · rw [if_neg hb] at h
          simp only [Option.some.injEq, Prod.mk.injEq] at h
          push_neg at hb
          omega

theorem getValidatedDouble_inRange :
    ∀ (fuel : Nat) (mn mx : ℚ) (cs : List Char) (v : ℚ) (rest : List Char),
      (getValidatedDouble fuel mn mx cs).1 = some (v, rest) → mn ≤ v ∧ v ≤ mx := by
  intro fuel
  induction fuel with
  | zero =>
    intro mn mx cs v rest h
    simp [getValidatedDouble] at h
  | succ n ih =>
    intro mn mx cs v rest h
    rw [getValidatedDouble] at h
    cases hI : getValidatedRat (n + 1) cs with
    | mk o log =>
      rw [hI] at h
      cases o with
      | none => simp at h
      | some p =>
        obtain ⟨v0, rest0⟩ := p
        simp only at h
        by_cases hb : v0 < mn ∨ v0 > mx
        · rw [if_pos hb] at h
          exact ih mn mx rest0 v rest h
        · rw [if_neg hb] at h
          simp only [Option.some.injEq, Prod.mk.injEq] at h
          push_neg at hb
          obtain ⟨h1, h2⟩ := h
          subst h1
          exact ⟨hb.1, hb.2⟩

/-! ## C1 -/

/-- C1: whenever the range-checked integer reader `getValidatedChoice`
returns at all, the returned value lies in `[mn, mx]`, for any bounds and
any input stream; the same holds for `getValidatedDouble`; and the error
line printed for an out-of-range value is distinct from the one printed for
a parse failure (for both readers, whatever the bounds).  Re-reading on
failure is the loop itself: failed iterations only add error lines and
recurse. -/
theorem claim_C1_range_checked_readers :
    (∀ (fuel : Nat) (mn mx : Int) (cs : List Char) (v : Int) (rest : List Char),
        (getValidatedChoice fuel mn mx cs).1 = some (v, rest) → mn ≤ v ∧ v ≤ mx)
  ∧ (∀ (fuel : Nat) (mn mx : ℚ) (cs : List Char) (v : ℚ) (rest : List Char),
        (getValidatedDouble fuel mn mx cs).1 = some (v, rest) → mn ≤ v ∧ v ≤ mx)
  ∧ (∀ mn mx : Int, ErrMsg.render (.choiceRange mn mx) ≠ ErrMsg.render .parseFail)
  ∧ (∀ mn mx : ℚ, ErrMsg.render (.valueRange mn mx) ≠ ErrMsg.render .parseFail) :=
  ⟨getValidatedChoice_inRange, getValidatedDouble_inRange,
    render_choiceRange_ne_parseFail, render_valueRange_ne_parseFail⟩

/-- C1 witness: on the stream `abc\n9\n3\n` with bounds `[1,5]` the reader
retries past the parse failure (`abc`) and the out-of-range value (`9`),
logging the two distinct error lines, and returns `3 ∈ [1,5]`; on
`50\n1000\n` with bounds `[100,100000]` it returns `1000`. -/
theorem claim_C1_witness :
    ((1 : Int) ≤ 3 ∧ (3 : Int) ≤ 5)
  ∧ ((100 : ℚ) ≤ 1000 ∧ (1000 : ℚ) ≤ 100000)
  ∧ (getValidatedChoice 5 1 5 ("abc\n9\n3\n".data)).2 =
      [ErrMsg.parseFail, ErrMsg.choiceRange 1 5]
  ∧ (getValidatedDouble 5 100 100000 ("50\n1000\n".data)).2 =
      [ErrMsg.valueRange 100 100000] :=
  ⟨claim_C1_range_checked_readers.1 5 1 5 ("abc\n9\n3\n".data) 3 ("\n".data)
      (by decide),
    claim_C1_range_checked_readers.2.1 5 100 100000 ("50\n1000\n".data) 1000
      ("\n".data)
      (by simp +decide [getValidatedDouble, getValidatedRat, extractRat,
            digitsVal, isWs, ignoreLine]),
    by decide,
    by simp +decide [getValidatedDouble, getValidatedRat, extractRat,
          digitsVal, isWs, ignoreLine]⟩

/-! ## C2 -/

theorem extractInt_digits (ws ds rest : List Char)
    (hws : ∀ c ∈ ws, isWs c = true) (hne : ds ≠ [])
    (hdig : ∀ c ∈ ds, c.isDigit = true)
    (hrest : ∀ c, rest.head? = some c → c.isDigit = false) :
    extractInt (ws ++ ds ++ rest) = (some (digitsVal ds : Int), rest) := by
  cases ds with
  | nil => exact absurd rfl hne
  | cons d ds' =>
    have hd : d.isDigit = true := hdig d (List.mem_cons_self d ds')
    have hdws : isWs d = false := isWs_eq_false_of_isDigit hd
    have hsign := ne_sign_of_isDigit hd
    have h1 : (ws ++ (d :: ds') ++ rest).dropWhile isWs = d :: (ds' ++ rest) := by
      rw [List.append_assoc, dropWhile_append_all _ _ hws]
      simp [List.cons_append, List.dropWhile_cons, hdws]
    have h2 := takeWhile_all_append (p := Char.isDigit) (d :: ds') rest hdig hrest
    rw [List.cons_append] at h2
    simp only [extractInt, h1, if_neg hsign.1, if_neg hsign.2, h2.1, h2.2]
    simp

theorem extractInt_ws_prefix (ws cs : List Char)
    (hws : ∀ c ∈ ws, isWs c = true) :
    extractInt (ws ++ cs) = extractInt cs := by
  simp only [extractInt, dropWhile_append_all _ _ hws]

/-- C2 counterexample: the token `12abc` is not treated as a parse failure:
`getValidated<int>` returns `12`, leaves `abc` unread in the stream and
prints no error; and an empty line followed by a whitespace-only line is
skipped silently (no error logged) rather than rejected. -/
theorem claim_C2_counterexample :
    (getValidatedInt 2 ("12abc\n".data)).1 = some (12, "abc\n".data)
  ∧ (getValidatedInt 2 ("12abc\n".data)).2 = []
  ∧ (getValidatedInt 3 ("\n   \n5\n".data)).1 = some (5, "\n".data)
  ∧ (getValidatedInt 3 ("\n   \n5\n".data)).2 = [] := by decide

/-- C2 amended: `getValidated<int>` treats a token as a parse failure only
when it has no numeric prefix; then it prints the error, discards through
the end of the line and retries.  A token consisting of digits followed by
trailing garbage is *not* a failure: the digit prefix is coerced to the
returned value and the garbage is left unread.  Empty and whitespace-only
input is skipped silently, with no error and no discard. -/
theorem claim_C2_parse_failure_handling :
    (∀ (fuel : Nat) (ws ds rest : List Char), (∀ c ∈ ws, isWs c = true) →
        ds ≠ [] → (∀ c ∈ ds, c.isDigit = true) →
        (∀ c, rest.head? = some c → c.isDigit = false) →
        getValidatedInt (fuel + 1) (ws ++ ds ++ rest) =
          (some ((digitsVal ds : Int), rest), []))
  ∧ (∀ (fuel : Nat) (ws cs : List Char), (∀ c ∈ ws, isWs c = true) →
        getValidatedInt (fuel + 1) (ws ++ cs) = getValidatedInt (fuel + 1) cs)
  ∧ (∀ (fuel : Nat) (cs : List Char), (extractInt cs).1 = none →
        getValidatedInt (fuel + 1) cs =
          ((getValidatedInt fuel (ignoreLine (extractInt cs).2)).1,
            ErrMsg.parseFail ::
              (getValidatedInt fuel (ignoreLine (extractInt cs).2)).2)) := by
  refine ⟨?_, ?_, ?_⟩
  · intro fuel ws ds rest hws hne hdig hrest
    rw [getValidatedInt, extractInt_digits ws ds rest hws hne hdig hrest]
  · intro fuel ws cs hws
    rw [getValidatedInt, getValidatedInt, extractInt_ws_prefix ws cs hws]
  · intro fuel cs hnone
    rw [getValidatedInt]
    cases hE : extractInt cs with
    | mk o r =>
      cases o with
      | none => rfl
      | some v => rw [hE] at hnone; simp at hnone

/-- C2 amended witness: `7xyz` parses as `7` leaving `xyz`; a whitespace
prefix is transparent; and on `abc\n5\n` the first line is a parse failure
that is discarded before `5` is read on retry. -/
theorem claim_C2_witness :
    getValidatedInt 4 (" \n".data ++ "7".data ++ "xyz\n".data) =
      (some ((7 : Int), "xyz\n".data), [])
  ∧ getValidatedInt 4 ("\n ".data ++ "5\n".data) = getValidatedInt 4 ("5\n".data)
  ∧ getValidatedInt 4 ("abc\n5\n".data) =
      ((getValidatedInt 3 (ignoreLine (extractInt ("abc\n5\n".data)).2)).1,
        ErrMsg.parseFail ::
          (getValidatedInt 3 (ignoreLine (extractInt ("abc\n5\n".data)).2)).2) :=
  ⟨by
      have := claim_C2_parse_failure_handling.1 3 (" \n".data) ("7".data)
        ("xyz\n".data) (by decide) (by decide) (by decide)
        (by intro c hc; cases hc; decide)
      simpa [digitsVal] using this,
    claim_C2_parse_failure_handling.2.1 3 ("\n ".data) ("5\n".data) (by decide),
    claim_C2_parse_failure_handling.2.2 3 ("abc\n5\n".data) (by decide)⟩

/-! ## C3 -/

/-- C3: for every accepted amount `a ∈ [100, 100000]`, answering *no* yields
the cancellation outcome with no fee, net or converted amounts computed,
and answering *yes* yields exactly `fee = a * 0.05`, `net = a - fee`, and
`net / rate` for each of the four currency rates of the source. -/
theorem claim_C3_convertCurrency (a : ℚ) (h1 : 100 ≤ a) (h2 : a ≤ 100000) :
    convertCurrency a false = .cancelled
  ∧ convertCurrency a true =
      .quote (a * (5 / 100)) (a - a * (5 / 100))
        ((a - a * (5 / 100)) / (582554 / 10000))
        ((a - a * (5 / 100)) / (676375 / 10000))
        ((a - a * (5 / 100)) / (3818 / 10000))
        ((a - a * (5 / 100)) / (383071 / 10000)) := by
  refine ⟨rfl, ?_⟩
  simp only [convertCurrency, TRANSACTION_FEE_RATE, USD_RATE, EUR_RATE,
    JPY_RATE, AUD_RATE, Bool.not_true, Bool.false_eq_true, if_false,
    ConvResult.quote.injEq]
  norm_num

/-- C3 witness: amount 1000 confirmed gives fee 50, net 950 and the four
converted amounts `950 / rate`; amount 1000 declined gives the cancellation
outcome. -/
theorem claim_C3_witness :
    ((100 : ℚ) ≤ 1000 ∧ (1000 : ℚ) ≤ 100000)
  ∧ convertCurrency 1000 false = .cancelled
  ∧ convertCurrency 1000 true =
      .quote 50 950 (9500000 / 582554) (9500000 / 676375)
        (9500000 / 3818) (9500000 / 383071) :=
  ⟨⟨by norm_num, by norm_num⟩,
    (claim_C3_convertCurrency 1000 (by norm_num) (by norm_num)).1,
    by
      rw [(claim_C3_convertCurrency 1000 (by norm_num) (by norm_num)).2]
      simp only [ConvResult.quote.injEq]
      norm_num⟩

/-! ## C4 -/

/-- C4: for four grades in `[0,100]`, the Grade Evaluator's average is their
sum divided by 4 in exact (real) arithmetic, and the pass remark is shown
iff `average ≥ 80`, the threshold being inclusive. -/
theorem claim_C4_gradeEvaluator (g1 g2 g3 g4 : ℚ)
    (h1 : 0 ≤ g1 ∧ g1 ≤ 100) (h2 : 0 ≤ g2 ∧ g2 ≤ 100)
    (h3 : 0 ≤ g3 ∧ g3 ≤ 100) (h4 : 0 ≤ g4 ∧ g4 ≤ 100) :
    (gradeEvaluator [g1, g2, g3, g4]).1 = (g1 + g2 + g3 + g4) / 4
  ∧ ((gradeEvaluator [g1, g2, g3, g4]).2 = true ↔
      (g1 + g2 + g3 + g4) / 4 ≥ 80) := by
  constructor
  · simp [gradeEvaluator]
  · simp [gradeEvaluator, PASSING_GRADE, decide_eq_true_iff]

/-- C4 witness: grades (80,80,80,80) average exactly 80 and pass (the
threshold is inclusive); (0,0,0,0) fail; (100,100,60,100) average 90 and
pass. -/
theorem claim_C4_witness :
    ((0 : ℚ) ≤ 80 ∧ (80 : ℚ) ≤ 100)
  ∧ (gradeEvaluator [80, 80, 80, 80]).1 = (80 + 80 + 80 + 80 : ℚ) / 4
  ∧ (gradeEvaluator [80, 80, 80, 80]).2 = true
  ∧ (gradeEvaluator [0, 0, 0, 0]).2 = false
  ∧ (gradeEvaluator [100, 100, 60, 100]).2 = true :=
  ⟨⟨by norm_num, by norm_num⟩,
    (claim_C4_gradeEvaluator 80 80 80 80 ⟨by norm_num, by norm_num⟩
      ⟨by norm_num, by norm_num⟩ ⟨by norm_num, by norm_num⟩
      ⟨by norm_num, by norm_num⟩).1,
    by
      rw [(claim_C4_gradeEvaluator 80 80 80 80 ⟨by norm_num, by norm_num⟩
        ⟨by norm_num, by norm_num⟩ ⟨by norm_num, by norm_num⟩
        ⟨by norm_num, by norm_num⟩).2]
      norm_num,
    by norm_num [gradeEvaluator, PASSING_GRADE],
    by norm_num [gradeEvaluator, PASSING_GRADE]⟩

/-! ## C5 -/

/-- C5: `getValidatedYesNo` returns `true` exactly when the case-folded
token is `y` or `yes` and `false` exactly when it is `n` or `no`; any other
token logs the error line and re-prompts (the loop recurses on the rest of
the input), and when no recognised token ever arrives the loop never
returns a value — there is no default. -/
theorem claim_C5_yesNo :
    (∀ t : String,
        (getValidatedYesNo 1 [t]).1 = some (true, []) ↔
          (strToLower t = "y" ∨ strToLower t = "yes"))
  ∧ (∀ t : String,
        (getValidatedYesNo 1 [t]).1 = some (false, []) ↔
          (strToLower t = "n" ∨ strToLower t = "no"))
  ∧ (∀ (fuel : Nat) (t : String) (ts : List String),
        ¬(strToLower t = "y" ∨ strToLower t = "yes") →
        ¬(strToLower t = "n" ∨ strToLower t = "no") →
        getValidatedYesNo (fuel + 1) (t :: ts) =
          ((getValidatedYesNo fuel ts).1,
            ErrMsg.yesNo :: (getValidatedYesNo fuel ts).2))
  ∧ (∀ (fuel : Nat) (toks : List String),
        (∀ t ∈ toks, ¬(strToLower t = "y" ∨ strToLower t = "yes") ∧
          ¬(strToLower t = "n" ∨ strToLower t = "no")) →
        (getValidatedYesNo fuel toks).1 = none) := by
  refine ⟨?_, ?_, ?_, ?_⟩
  · intro t
    simp only [getValidatedYesNo]
    split_ifs with hy hn
    · simp [hy]
    · simp [hy, hn]
    · simp [getValidatedYesNo, hy]
  · intro t
    simp only [getValidatedYesNo]
    split_ifs with hy hn
    · rcases hy with h | h <;> rw [h] <;> decide
    · simp [hn]
    · simp [getValidatedYesNo, hn]
  · intro fuel t ts hy hn
    simp only [getValidatedYesNo, if_neg hy, if_neg hn]
  · intro fuel
    induction fuel with
    | zero => intro toks _; simp [getValidatedYesNo]
    | succ n ih =>
      intro toks hall
      cases toks with
      | nil => simp [getValidatedYesNo]
      | cons t ts =>
        have ht := hall t (List.mem_cons_self t ts)
        simp only [getValidatedYesNo, if_neg ht.1, if_neg ht.2]
        exact ih ts (fun x hx => hall x (List.mem_cons_of_mem t hx))

/-- C5 witness: `YeS` case-folds to `yes` and returns `true`; `No` returns
`false`; a stream of only unrecognised tokens never yields a value. -/
theorem claim_C5_witness :
    (getValidatedYesNo 1 ["YeS"]).1 = some (true, [])
  ∧ (getValidatedYesNo 1 ["No"]).1 = some (false, [])
  ∧ (getValidatedYesNo 3 ["maybe", "q", "0"]).1 = none :=
  ⟨(claim_C5_yesNo.1 "YeS").mpr (Or.inr (by decide)),
    (claim_C5_yesNo.2.1 "No").mpr (Or.inr (by decide)),
    claim_C5_yesNo.2.2.2 3 ["maybe", "q", "0"] (by decide)⟩

/-! ## C6 -/

/-- C6: for every height `h ∈ [1,20]`, the right triangle has exactly `h`
lines with line `i` (0-indexed) consisting of exactly `i+1` stars, and the
inverted triangle has exactly `h` lines with line `i` consisting of exactly
`h - i` stars (1-indexed: `i` and `h - i + 1` stars respectively). -/
theorem claim_C6_triangles (h : Nat) (hlo : 1 ≤ h) (hhi : h ≤ 20) :
    (displayRightTriangle h).length = h
  ∧ (∀ i, i < h →
      (displayRightTriangle h)[i]? = some (List.replicate (i + 1) '*'))
  ∧ (displayInvertedTriangle h).length = h
  ∧ (∀ i, i < h →
      (displayInvertedTriangle h)[i]? = some (List.replicate (h - i) '*')) := by
  refine ⟨?_, ?_, ?_, ?_⟩
  · simp [displayRightTriangle]
  · intro i hi
    simp [displayRightTriangle, List.getElem?_map, List.getElem?_range hi]
  · simp [displayInvertedTriangle]
  · intro i hi
    simp [displayInvertedTriangle, List.getElem?_map, List.getElem?_range hi]

/-- C6 witness: at height 3 the right triangle's line lengths are `[1,2,3]`
and the inverted triangle's are `[3,2,1]`. -/
theorem claim_C6_witness :
    (1 ≤ 3 ∧ 3 ≤ 20)
  ∧ (displayRightTriangle 3).length = 3
  ∧ displayRightTriangle 3 = [['*'], ['*', '*'], ['*', '*', '*']]
  ∧ displayInvertedTriangle 3 = [['*', '*', '*'], ['*', '*'], ['*']] :=
  ⟨⟨by decide, by decide⟩, (claim_C6_triangles 3 (by decide) (by decide)).1,
    by decide, by decide⟩

/-! ## C7 -/

/-- C7: in each of the three menu loops, a validated choice equal to the
last listed index terminates the loop with no handler dispatched, and any
other valid choice dispatches exactly the matching handler once, after
which the loop continues from the same menu state on the remaining input. -/
theorem claim_C7_menu_loops :
    (∀ (fuel : Nat) (c : Int) (cs : List Int), 1 ≤ c → c ≤ 5 →
        (c = 5 → programRun (fuel + 1) (c :: cs) = ([], true))
      ∧ (c ≠ 5 → programRun (fuel + 1) (c :: cs) =
          (c.toNat :: (programRun fuel cs).1, (programRun fuel cs).2)))
  ∧ (∀ (fuel : Nat) (c hh : Int) (cs : List Int), 1 ≤ c → c ≤ 4 →
        (c = 4 → triangleRun (fuel + 1) (c :: hh :: cs) = ([], true))
      ∧ (c ≠ 4 → triangleRun (fuel + 1) (c :: hh :: cs) =
          ((c.toNat, hh) :: (triangleRun fuel cs).1, (triangleRun fuel cs).2)))
  ∧ (∀ (fuel : Nat) (c : Int) (cs : List Int), 1 ≤ c → c ≤ 3 →
        (c = 3 → currencyRun (fuel + 1) (c :: cs) = ([], true))
      ∧ (c ≠ 3 → currencyRun (fuel + 1) (c :: cs) =
          (c.toNat :: (currencyRun fuel cs).1, (currencyRun fuel cs).2))) := by
  refine ⟨?_, ?_, ?_⟩
  · intro fuel c cs h1 h2
    constructor
    · intro hc; subst hc; simp [programRun, mainMenuStep]
    · intro hne
      interval_cases c
      · simp [programRun, mainMenuStep]
      · simp [programRun, mainMenuStep]
      · simp [programRun, mainMenuStep]
      · simp [programRun, mainMenuStep]
      · exact absurd rfl hne
  · intro fuel c hh cs h1 h2
    constructor
    · intro hc; subst hc; simp [triangleRun]
    · intro hne
      interval_cases c
      · simp [triangleRun, triangleMenuStep]
      · simp [triangleRun, triangleMenuStep]
      · simp [triangleRun, triangleMenuStep]
      · exact absurd rfl hne
  · intro fuel c cs h1 h2
    constructor
    · intro hc; subst hc; simp [currencyRun]
    · intro hne
      interval_cases c
      · simp [currencyRun, currencyMenuStep]
      · simp [currencyRun, currencyMenuStep]
      · exact absurd rfl hne

/-- C7 witness: concrete runs of the three loops — the exit choice (5, 4, 3
respectively) terminates immediately with no handler, and a non-exit choice
dispatches exactly its handler before the loop continues. -/
theorem claim_C7_witness :
    programRun 2 [5] = ([], true)
  ∧ programRun 2 [2, 5] = ((2 : Int).toNat :: (programRun 1 [5]).1,
      (programRun 1 [5]).2)
  ∧ triangleRun 2 [4, 0] = ([], true)
  ∧ triangleRun 2 [3, 7, 4] = (((3 : Int).toNat, (7 : Int)) ::
      (triangleRun 1 [4]).1, (triangleRun 1 [4]).2)
  ∧ currencyRun 2 [3] = ([], true)
  ∧ currencyRun 2 [1, 3] = ((1 : Int).toNat :: (currencyRun 1 [3]).1,
      (currencyRun 1 [3]).2) :=
  ⟨(claim_C7_menu_loops.1 1 5 [] (by decide) (by decide)).1 rfl,
    (claim_C7_menu_loops.1 1 2 [5] (by decide) (by decide)).2 (by decide),
    (claim_C7_menu_loops.2.1 1 4 0 [] (by decide) (by decide)).1 rfl,
    (claim_C7_menu_loops.2.1 1 3 7 [4] (by decide) (by decide)).2 (by decide),
    (claim_C7_menu_loops.2.2 1 3 [] (by decide) (by decide)).1 rfl,
    (claim_C7_menu_loops.2.2 1 1 [3] (by decide) (by decide)).2 (by decide)⟩

/-! ## C8 -/

/-- C8 counterexample: on the stream `\nab\n` — an empty first line, then
the line `ab` — `pauseBuffer` consumes the newline *and* the character
`a`: the remainder is `b\n`.  Consuming exactly the one (empty) line would
leave `ab\n`, so the pause does not consume exactly one line. -/
theorem claim_C8_counterexample :
    pauseBuffer ("\nab\n".data) = "b\n".data
  ∧ pauseBuffer ("\nab\n".data) ≠ "ab\n".data := by decide

/-- C8 amended: `pauseBuffer` consumes the remainder of the current line,
its terminating newline included, plus exactly one further character — one
whole line only in the intended post-token state where nothing but the
newline is pending. -/
theorem claim_C8_pauseBuffer (line rest : List Char) (hnl : '\n' ∉ line) :
    pauseBuffer (line ++ '\n' :: rest) = rest.drop 1 := by
  unfold pauseBuffer ignoreLine
  have hall : ∀ c ∈ line, (c != '\n') = true := by
    intro c hc
    exact bne_iff_ne.mpr (fun hceq => hnl (hceq ▸ hc))
  have h1 : (line ++ '\n' :: rest).dropWhile (fun c => c != '\n') =
      '\n' :: rest := by
    rw [dropWhile_append_all _ _ hall]
    simp [List.dropWhile_cons]
  rw [h1]
  simp

/-- C8 amended witness: on `ab\ncd` the pause consumes `ab`, the newline
and the `c`, leaving `d`. -/
theorem claim_C8_witness :
    ('\n' ∉ "ab".data)
  ∧ pauseBuffer ("ab".data ++ '\n' :: "cd".data) = ("cd".data).drop 1 :=
  ⟨by decide, claim_C8_pauseBuffer ("ab".data) ("cd".data) (by decide)⟩

/-! ## C9 -/

theorem splitLines_line (l rest : List Char) (hnl : '\n' ∉ l) :
    splitLines (l ++ '\n' :: rest) = l :: splitLines rest := by
  induction l with
  | nil => simp [splitLines]
  | cons c l ih =>
    have hc : ¬(c = '\n') := fun hceq => hnl (hceq ▸ List.mem_cons_self c l)
    have ih' := ih (fun hx => hnl (List.mem_cons_of_mem c hx))
    simp only [List.cons_append, splitLines, if_neg hc, List.append_eq, ih']

theorem splitLines_linesOut (L : List (List Char)) (tail : List Char)
    (hL : ∀ l ∈ L, '\n' ∉ l) :
    splitLines (linesOut L ++ tail) = L ++ splitLines tail := by
  induction L with
  | nil => simp [linesOut]
  | cons l L ih =>
    have h1 : '\n' ∉ l := hL l (List.mem_cons_self l L)
    have ih' := ih (fun x hx => hL x (List.mem_cons_of_mem l hx))
    simp only [linesOut, List.flatMap_cons] at ih' ⊢
    rw [List.append_assoc, List.append_assoc, List.singleton_append,
      splitLines_line l _ h1, ih', List.cons_append]

theorem triangle_lines_no_newline (h : Nat) :
    (∀ l ∈ displayRightTriangle h, '\n' ∉ l)
  ∧ (∀ l ∈ displayInvertedTriangle h, '\n' ∉ l) := by
  constructor <;>
    · intro l hl
      simp only [displayRightTriangle, displayInvertedTriangle,
        List.mem_map] at hl
      obtain ⟨i, _, rfl⟩ := hl
      intro hmem
      exact absurd (List.eq_of_mem_replicate hmem) (by decide)

/-- C9 counterexample: at height 1, choosing *Both* prints the line
sequence `Right Triangle:`, `*`, *an empty line*, `Inverted Triangle:`,
`*` — the label between the two triangles is accompanied by a blank line
(the source writes `"\nInverted Triangle:\n"`), contradicting the claimed
blank-line-free label. -/
theorem claim_C9_counterexample :
    splitLines (triangleBothOut 1) =
      ["Right Triangle:".data, ['*'], [], "Inverted Triangle:".data,
        ['*'], []]
  ∧ (splitLines (triangleBothOut 1))[2]? = some []
  ∧ (splitLines (triangleBothOut 1))[3]? =
      some ("Inverted Triangle:".data) := by decide

/-- C9 amended: for every height, *Both* produces the right triangle, then
one blank line followed by the label, then the inverted triangle (and the
trailing empty line of the final newline). -/
theorem claim_C9_both_output (h : Nat) :
    splitLines (triangleBothOut h) =
      "Right Triangle:".data ::
        (displayRightTriangle h ++
          [] :: "Inverted Triangle:".data ::
            (displayInvertedTriangle h ++ [[]])) := by
  have hA : ("Right Triangle:\n").data =
      ("Right Triangle:").data ++ '\n' :: [] := by decide
  have hB : ("\nInverted Triangle:\n").data =
      '\n' :: (("Inverted Triangle:").data ++ '\n' :: []) := by decide
  have hR := (triangle_lines_no_newline h).1
  have hI := (triangle_lines_no_newline h).2
  have hcons : ∀ X : List Char, splitLines ('\n' :: X) = [] :: splitLines X := by
    intro X; simp [splitLines]
  have hlast : splitLines (linesOut (displayInvertedTriangle h)) =
      displayInvertedTriangle h ++ [[]] := by
    have := splitLines_linesOut (displayInvertedTriangle h) [] hI
    rwa [List.append_nil] at this
  have key : ∀ l1 l2 : List Char, '\n' ∉ l1 → '\n' ∉ l2 →
      splitLines ((l1 ++ ['\n']) ++ linesOut (displayRightTriangle h) ++
        ('\n' :: (l2 ++ ['\n'])) ++ linesOut (displayInvertedTriangle h)) =
      l1 :: (displayRightTriangle h ++
        [] :: l2 :: (displayInvertedTriangle h ++ [[]])) := by
    intro l1 l2 hl1 hl2
    simp only [List.append_assoc, List.cons_append, List.singleton_append,
      List.nil_append]
    rw [splitLines_line _ _ hl1, splitLines_linesOut _ _ hR, hcons,
      splitLines_line _ _ hl2, hlast]
  rw [triangleBothOut, hA, hB]
  exact key _ _ (by decide) (by decide)

/-! ## C10 -/

/-- C10: the `default` branch of each dispatch switch is unreachable for a
validated choice: in the main menu every choice in `[1,5]` is a labelled
case (the exit choice 5 is itself a labelled case that returns), and in the
triangle and currency sub-menus the exit choice is intercepted by the break
before the switch while the remaining choices in range all hit labelled
cases; so no switch execution ever reaches the `[ERROR]`-printing default. -/
theorem claim_C10_default_unreachable :
    (∀ c : Int, 1 ≤ c → c ≤ 5 → mainMenuStep c ≠ .invalid)
  ∧ (∀ c : Int, 1 ≤ c → c ≤ 4 → triangleMenuStep c ≠ .invalid)
  ∧ (∀ c : Int, 1 ≤ c → c ≤ 3 → currencyMenuStep c ≠ .invalid) := by
  refine ⟨?_, ?_, ?_⟩ <;> intro c h1 h2 <;> interval_cases c <;> decide

/-- C10 witness: concrete in-range choices never land in a default branch. -/
theorem claim_C10_witness :
    mainMenuStep 5 ≠ .invalid
  ∧ triangleMenuStep 4 ≠ .invalid
  ∧ currencyMenuStep 2 ≠ .invalid :=
  ⟨claim_C10_default_unreachable.1 5 (by decide) (by decide),
    claim_C10_default_unreachable.2.1 4 (by decide) (by decide),
    claim_C10_default_unreachable.2.2 2 (by decide) (by decide)⟩

end ActivitySystem
